import Mathlib

/-!
# Verification of the resumable pairwise-distance engine

Shallow embedding of the two engine variants of this repository:

* `src/calculate_distances.py` — the DuckDB variant: `haversine`,
  `calculate_distance`, `save_results_to_duckdb`, `load_completed_pairs`,
  `calculate_distances_for_all_pairs`.
* `src/us/calculate_distances.py` — the SQLite variant: `load_zipcodes`,
  `initialize_pairs_table`, `calculate_distances`.

Databases are modelled as lists of rows, committed state passed explicitly.
Python floats are modelled as real numbers; where NaN behaviour matters the
type `Option ℝ` is used with `none` standing for NaN.  Environment
interactions (disk-space checks, commit success of the store) are modelled
as boolean parameters.  Threads/`as_completed` only permute the order in
which per-pair results are appended; the model fixes the deterministic
enumeration order, which is what every claim is stated up to.
-/

set_option maxHeartbeats 1000000

open scoped Real

namespace PostalEngine

/-! ## Pair enumeration

`itertools.combinations(xs, 2)` enumerates the pairs `(xs[i], xs[j])` with
`i < j`, in lexicographic order of the indices.  Both engine variants use it
to generate the pair universe. -/

/-- Embedding of `itertools.combinations(xs, 2)`: all pairs `(xs[i], xs[j])`
with `i < j` in order. -/
def combinations2 {α : Type} : List α → List (α × α)
  | [] => []
  | x :: xs => (xs.map (fun y => (x, y))) ++ combinations2 xs

theorem mem_combinations2_cons {α : Type} {x a b : α} {xs : List α} :
    (a, b) ∈ combinations2 (x :: xs) ↔
      (a = x ∧ b ∈ xs) ∨ (a, b) ∈ combinations2 xs := by
  simp only [combinations2, List.mem_append, List.mem_map]
  constructor
  · rintro (⟨y, hy, heq⟩ | h)
    · injection heq with h1 h2
      exact Or.inl ⟨h1.symm, h2 ▸ hy⟩
    · exact Or.inr h
  · rintro (⟨rfl, hb⟩ | h)
    · exact Or.inl ⟨b, hb, rfl⟩
    · exact Or.inr h

theorem mem_combinations2_left_right {α : Type} {a b : α} :
    ∀ {l : List α}, (a, b) ∈ combinations2 l → a ∈ l ∧ b ∈ l := by
  intro l
  induction l with
  | nil => simp [combinations2]
  | cons x xs ih =>
    intro h
    rcases mem_combinations2_cons.mp h with ⟨rfl, hb⟩ | h
    · exact ⟨List.mem_cons_self _ _, List.mem_cons_of_mem _ hb⟩
    · exact ⟨List.mem_cons_of_mem _ (ih h).1, List.mem_cons_of_mem _ (ih h).2⟩

theorem combinations2_ne {α : Type} {a b : α} :
    ∀ {l : List α}, l.Nodup → (a, b) ∈ combinations2 l → a ≠ b := by
  intro l
  induction l with
  | nil => simp [combinations2]
  | cons x xs ih =>
    intro hnd h
    rcases List.nodup_cons.mp hnd with ⟨hx, hxs⟩
    rcases mem_combinations2_cons.mp h with ⟨rfl, hb⟩ | h
    · rintro rfl; exact hx hb
    · exact ih hxs h

theorem combinations2_asymm {α : Type} {a b : α} :
    ∀ {l : List α}, l.Nodup → (a, b) ∈ combinations2 l →
      (b, a) ∉ combinations2 l := by
  intro l
  induction l with
  | nil => simp [combinations2]
  | cons x xs ih =>
    intro hnd h hba
    rcases List.nodup_cons.mp hnd with ⟨hx, hxs⟩
    rcases mem_combinations2_cons.mp h with ⟨hax, hb⟩ | h2
    · rcases mem_combinations2_cons.mp hba with ⟨hbx, ha⟩ | hba2
      · subst hax; subst hbx; exact hx hb
      · subst hax; exact hx (mem_combinations2_left_right hba2).2
    · rcases mem_combinations2_cons.mp hba with ⟨hbx, ha⟩ | hba2
      · subst hbx; exact hx (mem_combinations2_left_right h2).2
      · exact ih hxs h2 hba2

theorem combinations2_cover {α : Type} {a b : α} :
    ∀ {l : List α}, a ∈ l → b ∈ l → a ≠ b →
      (a, b) ∈ combinations2 l ∨ (b, a) ∈ combinations2 l := by
  intro l
  induction l with
  | nil => simp
  | cons x xs ih =>
    intro ha hb hne
    rcases List.mem_cons.mp ha with hax | hax
    · rcases List.mem_cons.mp hb with hbx | hbx
      · exact absurd (hax.trans hbx.symm) hne
      · exact Or.inl (mem_combinations2_cons.mpr (Or.inl ⟨hax, hbx⟩))
    · rcases List.mem_cons.mp hb with hbx | hbx
      · exact Or.inr (mem_combinations2_cons.mpr (Or.inl ⟨hbx, hax⟩))
      · rcases ih hax hbx hne with h | h
        · exact Or.inl (mem_combinations2_cons.mpr (Or.inr h))
        · exact Or.inr (mem_combinations2_cons.mpr (Or.inr h))

theorem combinations2_nodup {α : Type} :
    ∀ {l : List α}, l.Nodup → (combinations2 l).Nodup := by
  intro l
  induction l with
  | nil => simp [combinations2]
  | cons x xs ih =>
    intro hnd
    rcases List.nodup_cons.mp hnd with ⟨hx, hxs⟩
    refine List.Nodup.append ?_ (ih hxs) ?_
    · exact hxs.map (fun a b hab => (Prod.ext_iff.mp hab).2)
    · intro p hp hp'
      rcases List.mem_map.mp hp with ⟨y, hy, rfl⟩
      exact hx (mem_combinations2_left_right hp').1

theorem combinations2_length {α : Type} :
    ∀ (l : List α), 2 * (combinations2 l).length = l.length * (l.length - 1) := by
  intro l
  induction l with
  | nil => simp [combinations2]
  | cons x xs ih =>
    simp only [combinations2, List.length_append, List.length_map, List.length_cons]
    revert ih
    generalize xs.length = n
    generalize (combinations2 xs).length = c
    intro ih
    cases n with
    | zero => simp at ih ⊢; omega
    | succ k =>
      have h1 : k + 1 - 1 = k := rfl
      rw [h1] at ih
      have h2 : k + 1 + 1 - 1 = k + 1 := rfl
      rw [h2]
      calc 2 * (k + 1 + c) = 2 * (k + 1) + 2 * c := by ring
        _ = 2 * (k + 1) + (k + 1) * k := by rw [ih]
        _ = (k + 1 + 1) * (k + 1) := by ring

theorem combinations2_map {α β : Type} (f : α → β) :
    ∀ (l : List α),
      combinations2 (l.map f) = (combinations2 l).map (fun p => (f p.1, f p.2)) := by
  intro l
  induction l with
  | nil => simp [combinations2]
  | cons x xs ih => simp [combinations2, ih, List.map_map, Function.comp]

/-! ## The Distance Computer (`src/calculate_distances.py`, `haversine`)

`math.radians`, `math.sin`, `math.cos`, `math.sqrt`, `math.atan2` over Python
floats are modelled by the corresponding real functions.  `math.atan2(y, x)`
follows the C/IEEE quadrant convention, written out piecewise below. -/

/-- Embedding of `math.atan2` (quadrant-correct arctangent, C convention). -/
noncomputable def atan2 (y x : ℝ) : ℝ :=
  if 0 < x then Real.arctan (y / x)
  else if x < 0 then
    (if 0 ≤ y then Real.arctan (y / x) + Real.pi else Real.arctan (y / x) - Real.pi)
  else
    (if 0 < y then Real.pi / 2 else if y < 0 then -(Real.pi / 2) else 0)

/-- Embedding of `math.radians`: degrees to radians. -/
noncomputable def radians (d : ℝ) : ℝ := d * (Real.pi / 180)

/-- The intermediate `a` of `haversine`:
`sin(dlat/2)**2 + cos(lat1)*cos(lat2)*sin(dlon/2)**2` after the
`map(math.radians, ...)` conversion of all four inputs. -/
noncomputable def hav_a (lat1 lon1 lat2 lon2 : ℝ) : ℝ :=
  Real.sin ((radians lat2 - radians lat1) / 2) ^ 2 +
    Real.cos (radians lat1) * Real.cos (radians lat2) *
      Real.sin ((radians lon2 - radians lon1) / 2) ^ 2

/-- Embedding of `haversine(lat1, lon1, lat2, lon2)` from
`src/calculate_distances.py`: `R = 6371.0` km,
`c = 2 * atan2(sqrt(a), sqrt(1 - a))`, returns `R * c`. -/
noncomputable def haversine (lat1 lon1 lat2 lon2 : ℝ) : ℝ :=
  6371 * (2 * atan2 (Real.sqrt (hav_a lat1 lon1 lat2 lon2))
    (Real.sqrt (1 - hav_a lat1 lon1 lat2 lon2)))

theorem atan2_zero_one : atan2 0 1 = 0 := by
  simp [atan2, Real.arctan_zero]

theorem arctan_nonneg_of_nonneg {z : ℝ} (hz : 0 ≤ z) : 0 ≤ Real.arctan z := by
  have h := Real.arctan_strictMono.monotone hz
  rwa [Real.arctan_zero] at h

theorem atan2_nonneg {y : ℝ} (x : ℝ) (hy : 0 ≤ y) : 0 ≤ atan2 y x := by
  unfold atan2
  split_ifs with h1 h2 h3 h4
  · exact arctan_nonneg_of_nonneg (div_nonneg hy h1.le)
  · have := Real.neg_pi_div_two_lt_arctan (y / x)
    have := Real.pi_pos
    linarith
  · have := Real.pi_pos
    linarith
  · linarith
  · exact le_refl 0

theorem hav_a_self (lat lon : ℝ) : hav_a lat lon lat lon = 0 := by
  simp [hav_a]

theorem hav_a_symm (lat1 lon1 lat2 lon2 : ℝ) :
    hav_a lat2 lon2 lat1 lon1 = hav_a lat1 lon1 lat2 lon2 := by
  unfold hav_a
  have h1 : (radians lat1 - radians lat2) / 2 = -((radians lat2 - radians lat1) / 2) := by
    ring
  have h2 : (radians lon1 - radians lon2) / 2 = -((radians lon2 - radians lon1) / 2) := by
    ring
  rw [h1, h2, Real.sin_neg, Real.sin_neg]
  ring

theorem haversine_self (lat lon : ℝ) : haversine lat lon lat lon = 0 := by
  simp [haversine, hav_a_self, Real.sqrt_zero, Real.sqrt_one, atan2_zero_one]

theorem haversine_symm (lat1 lon1 lat2 lon2 : ℝ) :
    haversine lat1 lon1 lat2 lon2 = haversine lat2 lon2 lat1 lon1 := by
  unfold haversine
  rw [hav_a_symm]

theorem haversine_nonneg (lat1 lon1 lat2 lon2 : ℝ) :
    0 ≤ haversine lat1 lon1 lat2 lon2 := by
  have h := atan2_nonneg (Real.sqrt (1 - hav_a lat1 lon1 lat2 lon2))
    (Real.sqrt_nonneg (hav_a lat1 lon1 lat2 lon2))
  unfold haversine
  nlinarith

/-- One degree of longitude at the equator: the haversine formula gives
exactly `6371 * π / 180` kilometres. -/
theorem haversine_equator_one_deg : haversine 0 0 0 1 = 6371 * (Real.pi / 180) := by
  have hpi := Real.pi_pos
  set t : ℝ := Real.pi / 360 with ht
  have ht0 : 0 < t := by positivity
  have htlt : t < Real.pi / 2 := by rw [ht]; linarith
  have hsin : 0 ≤ Real.sin t :=
    Real.sin_nonneg_of_nonneg_of_le_pi ht0.le (by rw [ht]; linarith)
  have hcos : 0 < Real.cos t :=
    Real.cos_pos_of_mem_Ioo ⟨by linarith, htlt⟩
  have ha : hav_a 0 0 0 1 = Real.sin t ^ 2 := by
    unfold hav_a radians
    rw [ht]
    norm_num
    ring_nf
  have h1 : Real.sqrt (hav_a 0 0 0 1) = Real.sin t := by
    rw [ha, Real.sqrt_sq hsin]
  have h2 : Real.sqrt (1 - hav_a 0 0 0 1) = Real.cos t := by
    rw [ha, ← Real.cos_sq', Real.sqrt_sq hcos.le]
  unfold haversine
  rw [h1, h2]
  have h3 : atan2 (Real.sin t) (Real.cos t) = t := by
    unfold atan2
    rw [if_pos hcos, ← Real.tan_eq_sin_div_cos,
      Real.arctan_tan (by linarith) htlt]
  rw [h3, ht]
  ring

theorem haversine_equator_approx : |haversine 0 0 0 1 - 111.2| < 0.01 := by
  rw [haversine_equator_one_deg, abs_sub_lt_iff]
  have h1 := Real.pi_gt_d6
  have h2 := Real.pi_lt_d6
  constructor <;> nlinarith

/-! ## The NaN pipeline (`haversine` / `calculate_distance` on invalid floats)

Python float NaN is modelled by `none : Option ℝ`; every arithmetic
operation and `math` function of the source propagates NaN, which is what
`pf1`/`pf2` encode.  `math.sqrt` raises `ValueError` only on negative real
arguments; the `a` of `haversine` satisfies `0 ≤ a ≤ 1` for real inputs, so
the domain-error branch is unreachable and `sqrt` is modelled total
(`none ↦ none`, like `math.sqrt(nan) == nan`). -/

/-- A Python float: a real number, or `none` for NaN. -/
abbrev PF : Type := Option ℝ

/-- Lift a unary real function to NaN-propagating floats. -/
noncomputable def pf1 (f : ℝ → ℝ) : PF → PF := Option.map f

/-- Lift a binary real function to NaN-propagating floats. -/
noncomputable def pf2 (f : ℝ → ℝ → ℝ) : PF → PF → PF
  | some a, some b => some (f a b)
  | _, _ => none

@[simp] theorem pf1_none (f : ℝ → ℝ) : pf1 f none = none := rfl

@[simp] theorem pf1_some (f : ℝ → ℝ) (a : ℝ) : pf1 f (some a) = some (f a) := rfl

@[simp] theorem pf2_none_left (f : ℝ → ℝ → ℝ) (x : PF) : pf2 f none x = none := by
  cases x <;> rfl

@[simp] theorem pf2_none_right (f : ℝ → ℝ → ℝ) (x : PF) : pf2 f x none = none := by
  cases x <;> rfl

@[simp] theorem pf2_some_some (f : ℝ → ℝ → ℝ) (a b : ℝ) :
    pf2 f (some a) (some b) = some (f a b) := rfl

/-- `haversine` over NaN-propagating floats, operation for operation as in
`src/calculate_distances.py` (`radians`, subtraction, `sin`, squaring,
`cos`, multiplication, addition, `sqrt`, `atan2`, final `R * c`). -/
noncomputable def haversineP (lat1 lon1 lat2 lon2 : PF) : PF :=
  let rlat1 := pf1 radians lat1
  let rlon1 := pf1 radians lon1
  let rlat2 := pf1 radians lat2
  let rlon2 := pf1 radians lon2
  let dlat := pf2 (fun a b => a - b) rlat2 rlat1
  let dlon := pf2 (fun a b => a - b) rlon2 rlon1
  let a := pf2 (fun a b => a + b)
    (pf1 (fun z => z ^ 2) (pf1 Real.sin (pf2 (fun a b => a / b) dlat (some 2))))
    (pf2 (fun a b => a * b)
      (pf2 (fun a b => a * b) (pf1 Real.cos rlat1) (pf1 Real.cos rlat2))
      (pf1 (fun z => z ^ 2) (pf1 Real.sin (pf2 (fun a b => a / b) dlon (some 2)))))
  let c := pf2 (fun a b => a * b) (some 2)
    (pf2 atan2 (pf1 Real.sqrt a) (pf1 Real.sqrt (pf2 (fun a b => a - b) (some 1) a)))
  pf2 (fun a b => a * b) (some 6371) c

/-- Embedding of `calculate_distance(pair)` from `src/calculate_distances.py`.
The `try/except` returns `None` only when an exception is raised; unpacking a
well-formed pair raises nothing and NaN arithmetic raises nothing, so the
function always returns the id pair together with the (possibly NaN)
haversine value. -/
noncomputable def calculate_distanceP
    (pair : (String × PF × PF) × (String × PF × PF)) :
    Option (String × String × PF) :=
  some (pair.1.1, pair.2.1,
    haversineP pair.1.2.1 pair.1.2.2 pair.2.2.1 pair.2.2.2)

theorem haversineP_nan {lat1 lon1 lat2 lon2 : PF}
    (h : (lat1.isNone || lon1.isNone || lat2.isNone || lon2.isNone) = true) :
    haversineP lat1 lon1 lat2 lon2 = none := by
  cases lat1 <;> cases lon1 <;> cases lat2 <;> cases lon2 <;>
    simp_all [haversineP]

/-! ## The DuckDB store (`src/calculate_distances.py`)

The `calculated_distances` table, `PRIMARY KEY (zip1, zip2)`, is a list of
rows `(zip1, zip2, distance_km)` in insertion order.  `conn` success/failure
is the boolean `commit_ok`: the `except` clause of `save_results_to_duckdb`
logs the error and returns normally, leaving the store unchanged. -/

/-- A committed row of the DuckDB results table. -/
abbrev DRow : Type := String × String × ℝ

/-- The canonical id pair (primary key) of a row. -/
def idPair {γ : Type} (r : String × String × γ) : String × String := (r.1, r.2.1)

/-- `INSERT OR IGNORE INTO calculated_distances ... executemany`: rows whose
primary key `(zip1, zip2)` already exists (in the table or earlier in the
same batch) are skipped. -/
def insertOrIgnore (store : List DRow) : List DRow → List DRow
  | [] => store
  | r :: rest =>
    if decide (idPair r ∈ store.map idPair) then insertOrIgnore store rest
    else insertOrIgnore (store ++ [r]) rest

/-- Embedding of `save_results_to_duckdb(results)`: on success the batch is
inserted with `INSERT OR IGNORE`; on a store failure the exception is caught,
logged, and the function returns normally with the store unchanged. -/
def save_results_to_duckdb (commit_ok : Bool) (results store : List DRow) : List DRow :=
  if commit_ok then insertOrIgnore store results else store

/-- The accumulate-and-flush loop of `calculate_distances_for_all_pairs`:
results are appended one by one (`as_completed` order is modelled as the
deterministic enumeration order — it only permutes the batch boundaries) and
the accumulator is saved and cleared whenever it reaches 100 entries.
Returns the final store and the unsaved remainder. -/
def flushFold (commit_ok : Bool) : List DRow → List DRow → List DRow → List DRow × List DRow
  | store, acc, [] => (store, acc)
  | store, acc, r :: rest =>
    let acc' := acc ++ [r]
    if 100 ≤ acc'.length then
      flushFold commit_ok (save_results_to_duckdb commit_ok acc' store) [] rest
    else flushFold commit_ok store acc' rest

/-- The trailing `if results: save_results_to_duckdb(results)` after the loop. -/
def finishSave (commit_ok : Bool) (p : List DRow × List DRow) : List DRow :=
  if p.2.isEmpty then p.1 else save_results_to_duckdb commit_ok p.2 p.1

/-- Embedding of `calculate_distances_for_all_pairs(zip_data)` from
`src/calculate_distances.py`, for valid (non-NaN) coordinates, returning the
final store contents: enumerate `itertools.combinations(zip_data, 2)`, drop
the pairs already recorded (in either orientation) in the store loaded by
`load_completed_pairs`, compute the haversine distance of each remaining
pair (`calculate_distance` returns a result, never `None`, on real inputs),
and commit in batches of 100 with a final flush. -/
noncomputable def calculate_distances_for_all_pairsD (commit_ok : Bool)
    (zip_data : List (String × ℝ × ℝ)) (store : List DRow) : List DRow :=
  finishSave commit_ok (flushFold commit_ok store []
    (((combinations2 zip_data).filter (fun p =>
        !(decide ((p.1.1, p.2.1) ∈ store.map idPair)) &&
          !(decide ((p.2.1, p.1.1) ∈ store.map idPair)))).map (fun p =>
      (p.1.1, p.2.1, haversine p.1.2.1 p.1.2.2 p.2.2.1 p.2.2.2))))

/-- The in-memory result list of one uninterrupted run over `zip_data`:
every unordered pair with its haversine distance, in enumeration order. -/
noncomputable def resultsList (zip_data : List (String × ℝ × ℝ)) : List DRow :=
  (combinations2 zip_data).map (fun p =>
    (p.1.1, p.2.1, haversine p.1.2.1 p.1.2.2 p.2.2.1 p.2.2.2))

theorem insertOrIgnore_append :
    ∀ (results store : List DRow),
      (∀ r ∈ results, idPair r ∉ store.map idPair) →
      (results.map idPair).Nodup →
      insertOrIgnore store results = store ++ results := by
  intro results
  induction results with
  | nil => intro store _ _; simp [insertOrIgnore]
  | cons r rest ih =>
    intro store hdisj hnd
    have hr : idPair r ∉ store.map idPair := hdisj r (List.mem_cons_self _ _)
    rw [insertOrIgnore, if_neg (by simpa using hr)]
    rw [ih (store ++ [r]) ?_ ((List.nodup_cons.mp (by simpa using hnd)).2)]
    · simp
    · intro r' hr'
      simp only [List.map_append, List.mem_append, List.map_cons, List.map_nil]
      rintro (h | h)
      · exact hdisj r' (List.mem_cons_of_mem _ hr') h
      · have hne : idPair r ∉ rest.map idPair :=
          (List.nodup_cons.mp (by simpa using hnd)).1
        simp only [List.mem_singleton] at h
        exact hne (h ▸ List.mem_map_of_mem idPair hr')

theorem flushFold_finish_true :
    ∀ (results store acc : List DRow),
      (((store ++ acc) ++ results).map idPair).Nodup →
      finishSave true (flushFold true store acc results) = (store ++ acc) ++ results := by
  intro results
  induction results with
  | nil =>
    intro store acc hnd
    rw [flushFold, finishSave]
    by_cases hacc : acc.isEmpty
    · rw [if_pos hacc]
      simp [List.isEmpty_iff.mp hacc]
    · rw [if_neg hacc]
      simp only [save_results_to_duckdb, if_pos rfl]
      rw [insertOrIgnore_append acc store ?_ ?_]
      · simp
      · intro r hr hmem
        have := hnd
        simp only [List.append_nil, List.map_append, List.nodup_append] at this
        exact this.2.2 hmem (List.mem_map_of_mem idPair hr)
      · have := hnd
        simp only [List.append_nil, List.map_append, List.nodup_append] at this
        exact this.2.1
  | cons r rest ih =>
    intro store acc hnd
    rw [flushFold]
    have hperm : (store ++ (acc ++ [r])) ++ rest = (store ++ acc) ++ (r :: rest) := by
      simp
    have hbig : (((store ++ (acc ++ [r])) ++ rest).map idPair).Nodup := by
      rw [hperm]; exact hnd
    by_cases hlen : 100 ≤ (acc ++ [r]).length
    · rw [if_pos hlen]
      have hsa : ((store ++ (acc ++ [r])).map idPair).Nodup := by
        refine List.Nodup.sublist ?_ hbig
        exact (List.sublist_append_left _ rest).map idPair
      rw [List.map_append] at hsa
      obtain ⟨nd1, nd2, disj⟩ := List.nodup_append.mp hsa
      have hsave : save_results_to_duckdb true (acc ++ [r]) store = store ++ (acc ++ [r]) := by
        simp only [save_results_to_duckdb, if_pos rfl]
        apply insertOrIgnore_append
        · intro r' hr' hmem
          exact disj hmem (List.mem_map_of_mem idPair hr')
        · exact nd2
      rw [hsave]
      rw [ih (store ++ (acc ++ [r])) [] (by simpa using hbig)]
      simp
    · rw [if_neg hlen]
      rw [ih store (acc ++ [r]) hbig]
      simp

theorem flushFold_finish_false :
    ∀ (results store acc : List DRow),
      finishSave false (flushFold false store acc results) = store := by
  intro results
  induction results with
  | nil =>
    intro store acc
    rw [flushFold, finishSave]
    by_cases hacc : acc.isEmpty
    · rw [if_pos hacc]
    · rw [if_neg hacc]; rfl
  | cons r rest ih =>
    intro store acc
    rw [flushFold]
    by_cases hlen : 100 ≤ (acc ++ [r]).length
    · rw [if_pos hlen]
      simpa [save_results_to_duckdb] using ih store []
    · rw [if_neg hlen]
      exact ih store (acc ++ [r])

/-- Commit failures are swallowed: with a failing store every flush is a
no-op and a run returns the store exactly as it found it. -/
theorem calcD_commit_failure (zip_data : List (String × ℝ × ℝ)) (store : List DRow) :
    calculate_distances_for_all_pairsD false zip_data store = store := by
  unfold calculate_distances_for_all_pairsD
  exact flushFold_finish_false _ store []

/-- Resumability of the DuckDB runner: starting from a store that already
holds the first `m` committed results (any interruption point), the run
skips exactly the recorded pairs and converges to the full result list —
the same store a single uninterrupted run (`m = 0`) produces. -/
theorem calcD_resume (zd : List (String × ℝ × ℝ))
    (hnd : (zd.map (fun z => z.1)).Nodup) (m : ℕ) :
    calculate_distances_for_all_pairsD true zd ((resultsList zd).take m) =
      resultsList zd := by
  have hkeys : (combinations2 zd).map (fun p => (p.1.1, p.2.1)) =
      combinations2 (zd.map (fun z => z.1)) := by
    rw [combinations2_map]
  have hkeynd : ((combinations2 zd).map (fun p => (p.1.1, p.2.1))).Nodup := by
    rw [hkeys]; exact combinations2_nodup hnd
  have hreskeys : (resultsList zd).map idPair =
      (combinations2 zd).map (fun p => (p.1.1, p.2.1)) := by
    unfold resultsList
    rw [List.map_map]
    rfl
  have hcompl : ((resultsList zd).take m).map idPair =
      ((combinations2 zd).map (fun p => (p.1.1, p.2.1))).take m := by
    rw [List.map_take, hreskeys]
  unfold calculate_distances_for_all_pairsD
  rw [hcompl]
  set pairKeys := (combinations2 zd).map (fun p => (p.1.1, p.2.1)) with hpk
  have hsplitk : pairKeys.take m ++ pairKeys.drop m = pairKeys := List.take_append_drop _ _
  have hdisjk : ∀ k ∈ pairKeys.drop m, k ∉ pairKeys.take m := by
    intro k hk hk'
    have := hsplitk ▸ hkeynd
    rw [List.nodup_append] at this
    exact this.2.2 hk' hk
  have hrem : (combinations2 zd).filter (fun p =>
      !(decide ((p.1.1, p.2.1) ∈ pairKeys.take m)) &&
        !(decide ((p.2.1, p.1.1) ∈ pairKeys.take m))) = (combinations2 zd).drop m := by
    conv_lhs => rw [← List.take_append_drop m (combinations2 zd)]
    rw [List.filter_append]
    have h1 : ((combinations2 zd).take m).filter (fun p =>
        !(decide ((p.1.1, p.2.1) ∈ pairKeys.take m)) &&
          !(decide ((p.2.1, p.1.1) ∈ pairKeys.take m))) = [] := by
      rw [List.filter_eq_nil_iff]
      intro p hp
      have hmem : (p.1.1, p.2.1) ∈ pairKeys.take m := by
        rw [hpk, ← List.map_take]
        exact List.mem_map_of_mem _ hp
      simp [hmem]
    have h2 : ((combinations2 zd).drop m).filter (fun p =>
        !(decide ((p.1.1, p.2.1) ∈ pairKeys.take m)) &&
          !(decide ((p.2.1, p.1.1) ∈ pairKeys.take m))) = (combinations2 zd).drop m := by
      rw [List.filter_eq_self]
      intro p hp
      have hk1 : (p.1.1, p.2.1) ∈ pairKeys.drop m := by
        rw [hpk, ← List.map_drop]
        exact List.mem_map_of_mem _ hp
      have hnot1 : (p.1.1, p.2.1) ∉ pairKeys.take m := hdisjk _ hk1
      have hnot2 : (p.2.1, p.1.1) ∉ pairKeys.take m := by
        intro hmem
        have hmem' : (p.2.1, p.1.1) ∈ pairKeys := by
          rw [← hsplitk]; exact List.mem_append_left _ hmem
        have hmem'' : (p.1.1, p.2.1) ∈ pairKeys := by
          rw [← hsplitk]; exact List.mem_append_right _ hk1
        rw [hkeys] at hmem' hmem''
        exact combinations2_asymm hnd hmem'' hmem'
      simp [hnot1, hnot2]
    rw [h1, h2, List.nil_append]
  rw [hrem]
  have hmapdrop : ((combinations2 zd).drop m).map (fun p =>
      (p.1.1, p.2.1, haversine p.1.2.1 p.1.2.2 p.2.2.1 p.2.2.2)) =
      (resultsList zd).drop m := by
    rw [List.map_drop]
    rfl
  rw [hmapdrop]
  have hfin := flushFold_finish_true ((resultsList zd).drop m)
    ((resultsList zd).take m) [] ?_
  · rw [hfin]
    simp [List.take_append_drop]
  · rw [List.append_nil, List.take_append_drop, hreskeys]
    exact hkeynd

/-! ## The SQLite engine (`src/us/calculate_distances.py`)

The `zip_distances` table `(zip1 TEXT, zip2 TEXT, distance_miles FLOAT
DEFAULT NULL)` is a list of rows in insertion order; `NULL` is `none`.
`check_disk_space()` is the boolean `disk_ok` (the environment does not
change during a run).  The geodesic distance of the external `geopy`
library is a function parameter `geod`.  `SELECT ... LIMIT n` returns rows
in list order; `conn.executemany(UPDATE ...)` applies the updates one after
the other, each affecting every row whose `(zip1, zip2)` matches.  Pandas
`zipcodes.loc[...].iloc[0]` raises `IndexError` when a zip code has no
catalog row, aborting the run, which the `Except` models.  Index
creation/drop and `VACUUM` do not change the row contents and are omitted. -/

/-- A row of the `zip_distances` work table. -/
abbrev Row : Type := String × String × Option ℝ

/-- The loaded ZIP code catalog: `(zipcode, latitude, longitude)` rows. -/
abbrev Catalog : Type := List (String × ℝ × ℝ)

/-- Coordinate lookup `zipcodes.loc[zipcodes["zipcode"] == z]`, first match. -/
def lookupCoord (zc : Catalog) (z : String) : Option (ℝ × ℝ) :=
  (zc.find? (fun r => r.1 == z)).map (fun r => r.2)

/-- `SELECT zip1, zip2 FROM zip_distances WHERE distance_miles IS NULL`. -/
def pendingPairs (store : List Row) : List (String × String) :=
  (store.filter (fun r => r.2.2.isNone)).map (fun r => (r.1, r.2.1))

/-- The same `SELECT` with `LIMIT batch_size`. -/
def pullBatch (store : List Row) (bs : ℕ) : List (String × String) :=
  (pendingPairs store).take bs

/-- `COUNT(*) ... WHERE distance_miles IS NULL`. -/
def nullCount (store : List Row) : ℕ :=
  (store.filter (fun r => r.2.2.isNone)).length

/-- The per-batch computation loop body: for each pulled pair, resolve both
coordinates in the catalog and compute the geodesic distance, producing the
`(distance_miles, zip1, zip2)` update tuples.  A missing zip code raises
`IndexError` (pandas `.iloc[0]` on an empty frame). -/
def computeBatch (geod : ℝ × ℝ → ℝ × ℝ → ℝ) (zc : Catalog) :
    List (String × String) → Except String (List (ℝ × String × String))
  | [] => .ok []
  | p :: rest =>
    match lookupCoord zc p.1, lookupCoord zc p.2 with
    | some c1, some c2 =>
      match computeBatch geod zc rest with
      | .error e => .error e
      | .ok ups => .ok ((geod c1 c2, p.1, p.2) :: ups)
    | _, _ => .error "IndexError: zipcode not found in catalog"

/-- One `UPDATE zip_distances SET distance_miles = ? WHERE zip1 = ? AND
zip2 = ?` applied to a single row. -/
def applyRow (u : ℝ × String × String) (r : Row) : Row :=
  if r.1 = u.2.1 ∧ r.2.1 = u.2.2 then (r.1, r.2.1, some u.1) else r

/-- `conn.executemany(UPDATE ...)`: the update tuples applied in order,
each to every row of the table. -/
def applyUpdates : List (ℝ × String × String) → List Row → List Row
  | [], store => store
  | u :: rest, store => applyUpdates rest (store.map (applyRow u))

/-- The effect of the whole update batch on one row. -/
def rowApply : List (ℝ × String × String) → Row → Row
  | [], r => r
  | u :: rest, r => rowApply rest (applyRow u r)

/-- One iteration of the `while total_pairs > 0` loop of
`calculate_distances`: disk check, pull a batch, compute, commit. -/
def stepBatch (disk_ok : Bool) (geod : ℝ × ℝ → ℝ × ℝ → ℝ) (zc : Catalog)
    (bs : ℕ) (store : List Row) : Except String (List Row) :=
  if disk_ok = false then .error "Insufficient disk space" else
  if (pullBatch store bs).isEmpty then .ok store
  else
    match computeBatch geod zc (pullBatch store bs) with
    | .error e => .error e
    | .ok ups => .ok (applyUpdates ups store)

/-- The batch loop of `calculate_distances`, run to completion.  The loop
exits when no pending pairs remain; the Python counter `total_pairs`
(decremented by the size of each committed batch) reaches `0` no earlier
than that, so it is not modelled separately.  The recursion is guarded by
the strictly decreasing count of `NULL` rows; the guard's `else` branch is
unreachable whenever every stored zip code resolves in the catalog
(`calcLoop_progress` below). -/
def calcLoop (disk_ok : Bool) (geod : ℝ × ℝ → ℝ × ℝ → ℝ) (zc : Catalog)
    (bs : ℕ) (store : List Row) : Except String (List Row) :=
  if disk_ok = false then .error "Insufficient disk space" else
  if (pullBatch store bs).isEmpty then .ok store
  else
    match computeBatch geod zc (pullBatch store bs) with
    | .error e => .error e
    | .ok ups =>
      if h : nullCount (applyUpdates ups store) < nullCount store then
        calcLoop disk_ok geod zc bs (applyUpdates ups store)
      else .ok (applyUpdates ups store)
termination_by nullCount store
decreasing_by exact h

/-- An interrupted run: the first `k` batch iterations of the loop (the
state after `k` committed batches, where the process was killed). -/
def runBatches (disk_ok : Bool) (geod : ℝ × ℝ → ℝ × ℝ → ℝ) (zc : Catalog)
    (bs : ℕ) : ℕ → List Row → Except String (List Row)
  | 0, store => .ok store
  | Nat.succ k, store =>
    match stepBatch disk_ok geod zc bs store with
    | .error e => .error e
    | .ok s' => runBatches disk_ok geod zc bs k s'

/-- Embedding of `calculate_distances(zipcodes, conn, batch_size)`: entry
disk check, then the batch loop (index management and `VACUUM` leave the
rows unchanged). -/
def calculate_distances (disk_ok : Bool) (geod : ℝ × ℝ → ℝ × ℝ → ℝ)
    (zc : Catalog) (bs : ℕ) (store : List Row) : Except String (List Row) :=
  if disk_ok = false then .error "Insufficient disk space"
  else calcLoop disk_ok geod zc bs store

/-- Embedding of `initialize_pairs_table(zipcodes, conn)` from
`src/us/calculate_distances.py` (the name carries a reserved prefix in this
development).  `CREATE TABLE IF NOT EXISTS` leaves existing rows unchanged.
If the table is empty, all `itertools.combinations` pairs are inserted with
`NULL` distance (the 10,000-row insert batching changes neither the final
contents nor their order); if it holds exactly
`len(zipcodes)*(len(zipcodes)-1)//2` rows, nothing is done; any other count
raises before any insert.  The error message is returned alongside the
(unchanged) store. -/
def init_pairs_table (disk_ok : Bool) (zc : Catalog) (store : List Row) :
    List Row × Option String :=
  if disk_ok = false then (store, some "Insufficient disk space")
  else if store.length = 0 then
    (store ++ (combinations2 (zc.map (fun z => z.1))).map
      (fun p => (p.1, p.2, (none : Option ℝ))), none)
  else if store.length = zc.length * (zc.length - 1) / 2 then (store, none)
  else (store, some "Existing pairs table incomplete. Please delete the table and try again.")

/-- The ZIP code source file as seen by `load_zipcodes`: whether the file
exists, which columns the CSV has, and its data rows. -/
structure ZipSource where
  fileExists : Bool
  columns : List String
  rows : List (String × ℝ × ℝ)

/-- Embedding of `load_zipcodes()` from `src/us/calculate_distances.py`:
`FileNotFoundError` when the CSV is missing, `ValueError` when any of the
required columns `zipcode`, `latitude`, `longitude` is absent, otherwise
the rows are returned as loaded — no further validation is performed. -/
def load_zipcodes (src : ZipSource) : Except String (List (String × ℝ × ℝ)) :=
  if src.fileExists = false then .error "FileNotFoundError: us_zipcodes.csv not found."
  else if (["zipcode", "latitude", "longitude"].all
      (fun c => decide (c ∈ src.columns))) = false then
    .error "ValueError: ZIP codes file must have zipcode, latitude, and longitude columns."
  else .ok src.rows

/-! ### Row-level update lemmas -/

theorem applyRow_fst (u : ℝ × String × String) (r : Row) :
    (applyRow u r).1 = r.1 ∧ (applyRow u r).2.1 = r.2.1 := by
  unfold applyRow
  split <;> simp

theorem rowApply_fst :
    ∀ (ups : List (ℝ × String × String)) (r : Row),
      (rowApply ups r).1 = r.1 ∧ (rowApply ups r).2.1 = r.2.1 := by
  intro ups
  induction ups with
  | nil => intro r; exact ⟨rfl, rfl⟩
  | cons u rest ih =>
    intro r
    rw [rowApply]
    refine ⟨(ih (applyRow u r)).1.trans (applyRow_fst u r).1,
      (ih (applyRow u r)).2.trans (applyRow_fst u r).2⟩

theorem rowApply_isSome :
    ∀ (ups : List (ℝ × String × String)) (r : Row),
      r.2.2.isSome = true → (rowApply ups r).2.2.isSome = true := by
  intro ups
  induction ups with
  | nil => intro r h; exact h
  | cons u rest ih =>
    intro r h
    rw [rowApply]
    apply ih
    unfold applyRow
    split <;> simp_all

theorem rowApply_hit :
    ∀ (ups : List (ℝ × String × String)) (r : Row),
      (∃ u ∈ ups, u.2.1 = r.1 ∧ u.2.2 = r.2.1) →
      (rowApply ups r).2.2.isSome = true := by
  intro ups
  induction ups with
  | nil => rintro r ⟨u, hu, _⟩; exact absurd hu (List.not_mem_nil u)
  | cons u rest ih =>
    rintro r ⟨u', hu', hm⟩
    rw [rowApply]
    by_cases hc : r.1 = u.2.1 ∧ r.2.1 = u.2.2
    · apply rowApply_isSome
      unfold applyRow
      rw [if_pos hc]
      rfl
    · rcases List.mem_cons.mp hu' with rfl | hu'
      · exact absurd ⟨hm.1.symm, hm.2.symm⟩ hc
      · have hr : applyRow u r = r := by unfold applyRow; rw [if_neg hc]
        rw [hr]
        exact ih r ⟨u', hu', hm⟩

theorem rowApply_miss :
    ∀ (ups : List (ℝ × String × String)) (r : Row),
      (∀ u ∈ ups, ¬(u.2.1 = r.1 ∧ u.2.2 = r.2.1)) → rowApply ups r = r := by
  intro ups
  induction ups with
  | nil => intro r _; rfl
  | cons u rest ih =>
    intro r h
    rw [rowApply]
    have hr : applyRow u r = r := by
      unfold applyRow
      rw [if_neg]
      intro hc
      exact h u (List.mem_cons_self _ _) ⟨hc.1.symm, hc.2.symm⟩
    rw [hr]
    exact ih r (fun u' hu' => h u' (List.mem_cons_of_mem _ hu'))

theorem applyUpdates_eq_map :
    ∀ (ups : List (ℝ × String × String)) (store : List Row),
      applyUpdates ups store = store.map (rowApply ups) := by
  intro ups
  induction ups with
  | nil =>
    intro store
    rw [applyUpdates]
    symm
    exact (List.map_congr_left (fun a _ => rfl)).trans (List.map_id _)
  | cons u rest ih =>
    intro store
    rw [applyUpdates, ih, List.map_map]
    exact List.map_congr_left (fun a _ => rfl)

theorem applyUpdates_idPair (ups : List (ℝ × String × String)) (store : List Row) :
    (applyUpdates ups store).map idPair = store.map idPair := by
  rw [applyUpdates_eq_map, List.map_map]
  apply List.map_congr_left
  intro r _
  show idPair (rowApply ups r) = idPair r
  unfold idPair
  rw [(rowApply_fst ups r).1, (rowApply_fst ups r).2]

/-! ### Null-row counting -/

theorem nullCount_eq_countP (store : List Row) :
    nullCount store = store.countP (fun r => r.2.2.isNone) :=
  (List.countP_eq_length_filter _ _).symm

theorem nullCount_eq_zero_iff (store : List Row) :
    nullCount store = 0 ↔ pendingPairs store = [] := by
  unfold nullCount pendingPairs
  rw [List.length_eq_zero, List.map_eq_nil]

theorem countP_lt_of_witness {α : Type} (p q : α → Bool) :
    ∀ (l : List α), (∀ a ∈ l, p a = true → q a = true) →
      ∀ a₀, a₀ ∈ l → q a₀ = true → p a₀ = false →
      l.countP p < l.countP q := by
  intro l
  induction l with
  | nil => intro _ a₀ h; exact absurd h (List.not_mem_nil a₀)
  | cons x xs ih =>
    intro hpq a₀ ha hq hp
    rw [List.countP_cons, List.countP_cons]
    rcases List.mem_cons.mp ha with rfl | ha
    · rw [hp, hq]
      have hle : xs.countP p ≤ xs.countP q :=
        List.countP_mono_left (fun a ha' => hpq a (List.mem_cons_of_mem _ ha'))
      norm_num
      omega
    · have hlt : xs.countP p < xs.countP q :=
        ih (fun a ha' => hpq a (List.mem_cons_of_mem _ ha')) a₀ ha hq hp
      have hx : (if p x = true then 1 else 0) ≤ (if q x = true then 1 else 0) := by
        by_cases hpx : p x = true
        · rw [if_pos hpx, if_pos (hpq x (List.mem_cons_self _ _) hpx)]
        · rw [if_neg hpx]; omega
      omega

theorem mem_pendingPairs {store : List Row} {p : String × String} :
    p ∈ pendingPairs store ↔
      ∃ r ∈ store, r.2.2.isNone = true ∧ (r.1, r.2.1) = p := by
  unfold pendingPairs
  constructor
  · intro h
    obtain ⟨r, hr, hrp⟩ := List.mem_map.mp h
    obtain ⟨hrs, hnull⟩ := List.mem_filter.mp hr
    exact ⟨r, hrs, hnull, hrp⟩
  · rintro ⟨r, hrs, hnull, hrp⟩
    exact List.mem_map.mpr ⟨r, List.mem_filter.mpr ⟨hrs, hnull⟩, hrp⟩

/-! ### Progress of the batch loop -/

/-- Every stored pair references zip codes present in the catalog. -/
abbrev Hres (zc : Catalog) (store : List Row) : Prop :=
  ∀ r ∈ store, ((lookupCoord zc r.1).isSome && (lookupCoord zc r.2.1).isSome) = true

theorem Hres_applyUpdates {zc : Catalog} {store : List Row}
    (ups : List (ℝ × String × String)) (hres : Hres zc store) :
    Hres zc (applyUpdates ups store) := by
  intro r' hr'
  rw [applyUpdates_eq_map] at hr'
  obtain ⟨r, hr, rfl⟩ := List.mem_map.mp hr'
  rw [(rowApply_fst ups r).1, (rowApply_fst ups r).2]
  exact hres r hr

theorem computeBatch_ok (geod : ℝ × ℝ → ℝ × ℝ → ℝ) (zc : Catalog) :
    ∀ (batch : List (String × String)),
      (∀ p ∈ batch, ((lookupCoord zc p.1).isSome && (lookupCoord zc p.2).isSome) = true) →
      ∃ ups, computeBatch geod zc batch = .ok ups ∧
        ups.map (fun u => (u.2.1, u.2.2)) = batch := by
  intro batch
  induction batch with
  | nil => intro _; exact ⟨[], rfl, rfl⟩
  | cons p rest ih =>
    intro h
    have hp := h p (List.mem_cons_self _ _)
    rw [Bool.and_eq_true] at hp
    obtain ⟨c1, hc1⟩ := Option.isSome_iff_exists.mp hp.1
    obtain ⟨c2, hc2⟩ := Option.isSome_iff_exists.mp hp.2
    obtain ⟨ups, hups, hmap⟩ := ih (fun q hq => h q (List.mem_cons_of_mem _ hq))
    refine ⟨(geod c1 c2, p.1, p.2) :: ups, ?_, ?_⟩
    · rw [computeBatch, hc1, hc2, hups]
    · rw [List.map_cons, hmap]

theorem calcLoop_progress {geod : ℝ × ℝ → ℝ × ℝ → ℝ} {zc : Catalog}
    {bs : ℕ} {store : List Row} (hres : Hres zc store)
    (hne : (pullBatch store bs).isEmpty = false) :
    ∃ ups, computeBatch geod zc (pullBatch store bs) = .ok ups ∧
      ups.map (fun u => (u.2.1, u.2.2)) = pullBatch store bs ∧
      nullCount (applyUpdates ups store) < nullCount store := by
  have hsub : ∀ p ∈ pullBatch store bs, p ∈ pendingPairs store :=
    fun p hp => List.take_subset bs _ hp
  have hbatchres : ∀ p ∈ pullBatch store bs,
      ((lookupCoord zc p.1).isSome && (lookupCoord zc p.2).isSome) = true := by
    intro p hp
    obtain ⟨r, hrs, _, hrp⟩ := mem_pendingPairs.mp (hsub p hp)
    have := hres r hrs
    rw [← hrp]
    exact this
  obtain ⟨ups, hups, hmap⟩ := computeBatch_ok geod zc _ hbatchres
  refine ⟨ups, hups, hmap, ?_⟩
  have hnil : pullBatch store bs ≠ [] := by
    intro h
    rw [h] at hne
    exact absurd hne (by simp)
  obtain ⟨p₀, hp₀⟩ := List.exists_mem_of_ne_nil _ hnil
  obtain ⟨r₀, hr₀s, hr₀null, hr₀p⟩ := mem_pendingPairs.mp (hsub p₀ hp₀)
  have hp₀ups : ∃ u ∈ ups, u.2.1 = r₀.1 ∧ u.2.2 = r₀.2.1 := by
    have : p₀ ∈ ups.map (fun u => (u.2.1, u.2.2)) := hmap ▸ hp₀
    obtain ⟨u, hu, hup⟩ := List.mem_map.mp this
    refine ⟨u, hu, ?_, ?_⟩
    · have := congrArg Prod.fst (hup.trans hr₀p.symm); exact this
    · have := congrArg Prod.snd (hup.trans hr₀p.symm); exact this
  rw [applyUpdates_eq_map, nullCount_eq_countP, nullCount_eq_countP, List.countP_map]
  apply countP_lt_of_witness _ _ store ?_ r₀ hr₀s hr₀null ?_
  · intro a _ hpa
    show a.2.2.isNone = true
    cases h22 : a.2.2 with
    | none => rfl
    | some v =>
      exfalso
      have hs : (rowApply ups a).2.2.isSome = true :=
        rowApply_isSome ups a (by rw [h22]; rfl)
      obtain ⟨x, hx⟩ := Option.isSome_iff_exists.mp hs
      have hpa' : (rowApply ups a).2.2.isNone = true := hpa
      rw [hx] at hpa'
      simp at hpa'
  · have hs : (rowApply ups r₀).2.2.isSome = true := rowApply_hit ups r₀ hp₀ups
    obtain ⟨x, hx⟩ := Option.isSome_iff_exists.mp hs
    show (rowApply ups r₀).2.2.isNone = false
    rw [hx]
    rfl

/-! ### Termination and resumability of the batch loop -/

theorem calcLoop_empty {geod : ℝ × ℝ → ℝ × ℝ → ℝ} {zc : Catalog} {bs : ℕ}
    {store : List Row} (he : (pullBatch store bs).isEmpty = true) :
    calcLoop true geod zc bs store = .ok store := by
  rw [calcLoop]
  rw [if_neg (by simp : ¬(true = false)), if_pos he]

theorem calcLoop_step {geod : ℝ × ℝ → ℝ × ℝ → ℝ} {zc : Catalog} {bs : ℕ}
    {store : List Row} {ups : List (ℝ × String × String)}
    (hne : (pullBatch store bs).isEmpty = false)
    (hcomp : computeBatch geod zc (pullBatch store bs) = .ok ups)
    (hdec : nullCount (applyUpdates ups store) < nullCount store) :
    calcLoop true geod zc bs store = calcLoop true geod zc bs (applyUpdates ups store) := by
  conv_lhs => rw [calcLoop]
  rw [if_neg (by simp : ¬(true = false))]
  rw [if_neg (by rw [hne]; simp : ¬((pullBatch store bs).isEmpty = true))]
  rw [hcomp]
  exact dif_pos hdec

theorem nullCount_zero_of_pull_empty {store : List Row} {bs : ℕ} (hbs : 0 < bs)
    (he : (pullBatch store bs).isEmpty = true) : nullCount store = 0 := by
  unfold pullBatch at he
  rw [List.isEmpty_iff] at he
  rcases List.take_eq_nil_iff.mp he with h | h
  · omega
  · exact (nullCount_eq_zero_iff store).mpr h

theorem pull_empty_of_nullCount_zero {store : List Row} (bs : ℕ)
    (h0 : nullCount store = 0) : (pullBatch store bs).isEmpty = true := by
  unfold pullBatch
  rw [(nullCount_eq_zero_iff store).mp h0]
  simp

theorem calcLoop_terminates (geod : ℝ × ℝ → ℝ × ℝ → ℝ) (zc : Catalog) (bs : ℕ)
    (hbs : 0 < bs) :
    ∀ (n : ℕ) (store : List Row), nullCount store ≤ n → Hres zc store →
      ∃ final, calcLoop true geod zc bs store = .ok final ∧ nullCount final = 0 := by
  intro n
  induction n with
  | zero =>
    intro store hle hres
    have h0 : nullCount store = 0 := Nat.le_zero.mp hle
    exact ⟨store, calcLoop_empty (pull_empty_of_nullCount_zero bs h0), h0⟩
  | succ n ih =>
    intro store hle hres
    by_cases he : (pullBatch store bs).isEmpty = true
    · exact ⟨store, calcLoop_empty he, nullCount_zero_of_pull_empty hbs he⟩
    · have hne : (pullBatch store bs).isEmpty = false := by simpa using he
      obtain ⟨ups, hcomp, hmap, hdec⟩ := calcLoop_progress hres hne
      rw [calcLoop_step hne hcomp hdec]
      exact ih (applyUpdates ups store) (by omega) (Hres_applyUpdates ups hres)

/-- One row refines another: same pair, and an already-recorded distance is
kept verbatim. -/
def donePres (r r' : Row) : Prop :=
  r'.1 = r.1 ∧ r'.2.1 = r.2.1 ∧ (r.2.2.isSome = true → r'.2.2 = r.2.2)

theorem forall2_donePres_refl : ∀ (l : List Row), List.Forall₂ donePres l l := by
  intro l
  induction l with
  | nil => exact List.Forall₂.nil
  | cons x xs ih => exact List.Forall₂.cons ⟨rfl, rfl, fun _ => rfl⟩ ih

theorem forall2_donePres_trans :
    ∀ {a b c : List Row}, List.Forall₂ donePres a b → List.Forall₂ donePres b c →
      List.Forall₂ donePres a c := by
  intro a b c hab
  induction hab generalizing c with
  | nil => intro h; cases h; exact List.Forall₂.nil
  | @cons x y xs ys hxy hrest ih =>
    intro h
    cases h with
    | @cons _ z _ zs hyz hrest2 =>
      refine List.Forall₂.cons ?_ (ih hrest2)
      obtain ⟨h1, h2, h3⟩ := hxy
      obtain ⟨g1, g2, g3⟩ := hyz
      refine ⟨g1.trans h1, g2.trans h2, ?_⟩
      intro hsome
      have hb := h3 hsome
      have hy : y.2.2.isSome = true := by rw [hb]; exact hsome
      rw [g3 hy, hb]

theorem forall2_map_self {f : Row → Row} {l : List Row}
    (h : ∀ r ∈ l, donePres r (f r)) : List.Forall₂ donePres l (l.map f) := by
  induction l with
  | nil => exact List.Forall₂.nil
  | cons x xs ih =>
    exact List.Forall₂.cons (h x (List.mem_cons_self _ _))
      (ih fun r hr => h r (List.mem_cons_of_mem _ hr))

/-- With a duplicate-free pair table, a committed batch only touches pending
rows: every completed row survives the update verbatim. -/
theorem step_donePres {store : List Row}
    {ups : List (ℝ × String × String)}
    (hnodup : (store.map idPair).Nodup)
    (hup : ∀ u ∈ ups, (u.2.1, u.2.2) ∈ pendingPairs store) :
    List.Forall₂ donePres store (applyUpdates ups store) := by
  rw [applyUpdates_eq_map]
  apply forall2_map_self
  intro r hr
  refine ⟨(rowApply_fst ups r).1, (rowApply_fst ups r).2, ?_⟩
  intro hsome
  have hmiss : ∀ u ∈ ups, ¬(u.2.1 = r.1 ∧ u.2.2 = r.2.1) := by
    rintro u hu ⟨h1, h2⟩
    obtain ⟨r2, hr2s, hr2null, hr2p⟩ := mem_pendingPairs.mp (hup u hu)
    have hkey : idPair r2 = idPair r := by
      show (r2.1, r2.2.1) = (r.1, r.2.1)
      rw [hr2p, h1, h2]
    have heq : r2 = r := List.inj_on_of_nodup_map hnodup hr2s hr hkey
    rw [heq] at hr2null
    cases h22 : r.2.2 <;> simp_all
  rw [rowApply_miss ups r hmiss]

theorem calcLoop_pres (geod : ℝ × ℝ → ℝ × ℝ → ℝ) (zc : Catalog) (bs : ℕ)
    (hbs : 0 < bs) :
    ∀ (n : ℕ) (store : List Row), nullCount store ≤ n → Hres zc store →
      (store.map idPair).Nodup →
      ∃ final, calcLoop true geod zc bs store = .ok final ∧
        List.Forall₂ donePres store final := by
  intro n
  induction n with
  | zero =>
    intro store hle _ _
    have h0 : nullCount store = 0 := Nat.le_zero.mp hle
    exact ⟨store, calcLoop_empty (pull_empty_of_nullCount_zero bs h0),
      forall2_donePres_refl store⟩
  | succ n ih =>
    intro store hle hres hnd
    by_cases he : (pullBatch store bs).isEmpty = true
    · exact ⟨store, calcLoop_empty he, forall2_donePres_refl store⟩
    · have hne : (pullBatch store bs).isEmpty = false := by simpa using he
      obtain ⟨ups, hcomp, hmap, hdec⟩ := calcLoop_progress hres hne
      have hup : ∀ u ∈ ups, (u.2.1, u.2.2) ∈ pendingPairs store := by
        intro u hu
        have : (u.2.1, u.2.2) ∈ ups.map (fun u => (u.2.1, u.2.2)) :=
          List.mem_map_of_mem _ hu
        rw [hmap] at this
        exact List.take_subset bs _ this
      have hstep := step_donePres hnd hup
      rw [calcLoop_step hne hcomp hdec]
      obtain ⟨final, hf, hfa⟩ := ih (applyUpdates ups store) (by omega)
        (Hres_applyUpdates ups hres) (by rw [applyUpdates_idPair]; exact hnd)
      exact ⟨final, hf, forall2_donePres_trans hstep hfa⟩

theorem runBatches_ok (geod : ℝ × ℝ → ℝ × ℝ → ℝ) (zc : Catalog) (bs : ℕ) :
    ∀ (k : ℕ) (store : List Row), Hres zc store → (store.map idPair).Nodup →
      ∃ sk, runBatches true geod zc bs k store = .ok sk ∧
        calcLoop true geod zc bs sk = calcLoop true geod zc bs store ∧
        Hres zc sk ∧ (sk.map idPair).Nodup := by
  intro k
  induction k with
  | zero => intro store hres hnd; exact ⟨store, rfl, rfl, hres, hnd⟩
  | succ k ih =>
    intro store hres hnd
    by_cases he : (pullBatch store bs).isEmpty = true
    · have hstep : stepBatch true geod zc bs store = .ok store := by
        unfold stepBatch
        rw [if_neg (by simp : ¬(true = false)), if_pos he]
      obtain ⟨sk, h1, h2, h3, h4⟩ := ih store hres hnd
      refine ⟨sk, ?_, h2, h3, h4⟩
      rw [runBatches, hstep]
      exact h1
    · have hne : (pullBatch store bs).isEmpty = false := by simpa using he
      obtain ⟨ups, hcomp, hmap, hdec⟩ := calcLoop_progress hres hne
      have hstep : stepBatch true geod zc bs store = .ok (applyUpdates ups store) := by
        unfold stepBatch
        rw [if_neg (by simp : ¬(true = false))]
        rw [if_neg (by rw [hne]; simp : ¬((pullBatch store bs).isEmpty = true))]
        rw [hcomp]
      obtain ⟨sk, h1, h2, h3, h4⟩ := ih (applyUpdates ups store)
        (Hres_applyUpdates ups hres) (by rw [applyUpdates_idPair]; exact hnd)
      refine ⟨sk, ?_, ?_, h3, h4⟩
      · rw [runBatches, hstep]
        exact h1
      · rw [h2, ← calcLoop_step hne hcomp hdec]

/-! ## Derived facts used by several claims -/

theorem calcD_empty_store (zd : List (String × ℝ × ℝ))
    (hnd : (zd.map (fun z => z.1)).Nodup) :
    calculate_distances_for_all_pairsD true zd [] = resultsList zd := by
  have h := calcD_resume zd hnd 0
  rwa [List.take_zero] at h

theorem resultsList_idPair (zd : List (String × ℝ × ℝ)) :
    (resultsList zd).map idPair = combinations2 (zd.map (fun z => z.1)) := by
  unfold resultsList
  rw [List.map_map, combinations2_map]
  rfl

/-- The properties claimed of a generated pair space over the catalog ids:
exact count `N*(N-1)/2`, no duplicates, every pair joins two distinct
catalog ids, no unordered pair appears in both orientations, and every
unordered pair of distinct ids appears in exactly one orientation. -/
def pairSpaceComplete (ids : List String) (ps : List (String × String)) : Prop :=
  ps.length = ids.length * (ids.length - 1) / 2 ∧
  ps.Nodup ∧
  (∀ a b, (a, b) ∈ ps → a ∈ ids ∧ b ∈ ids ∧ a ≠ b) ∧
  (∀ a b, (a, b) ∈ ps → (b, a) ∉ ps) ∧
  (∀ a b, a ∈ ids → b ∈ ids → a ≠ b → (a, b) ∈ ps ∨ (b, a) ∈ ps)

theorem pairSpaceComplete_combinations2 {ids : List String} (hnd : ids.Nodup) :
    pairSpaceComplete ids (combinations2 ids) := by
  refine ⟨?_, combinations2_nodup hnd, ?_, ?_, ?_⟩
  · have h2 := combinations2_length ids
    generalize hM : ids.length * (ids.length - 1) = M at h2 ⊢
    omega
  · intro a b hab
    exact ⟨(mem_combinations2_left_right hab).1, (mem_combinations2_left_right hab).2,
      combinations2_ne hnd hab⟩
  · intro a b hab
    exact combinations2_asymm hnd hab
  · intro a b ha hb hne
    exact combinations2_cover ha hb hne

/-! ## The claims -/

/-- C1: for every catalog with distinct ids, pair generation against an
empty store — `initialize_pairs_table` of the SQLite engine as well as the
in-memory enumeration of `calculate_distances_for_all_pairs` — succeeds and
produces exactly `N*(N-1)/2` work records, one per unordered pair of
distinct ids, with no duplicate unordered pair in either orientation. -/
theorem spec_c1_pair_generation (zc : Catalog)
    (h : (zc.map (fun z => z.1)).Nodup) :
    (init_pairs_table true zc []).2 = none ∧
    pairSpaceComplete (zc.map (fun z => z.1))
      (((init_pairs_table true zc []).1).map idPair) ∧
    pairSpaceComplete (zc.map (fun z => z.1))
      ((calculate_distances_for_all_pairsD true zc []).map idPair) := by
  have hrows : (init_pairs_table true zc []).1.map idPair =
      combinations2 (zc.map (fun z => z.1)) := by
    unfold init_pairs_table
    rw [if_neg (by simp : ¬(true = false)), if_pos (show ([] : List Row).length = 0 from rfl)]
    simp only [List.nil_append, List.map_map]
    exact (List.map_congr_left (fun p _ => by simp [idPair])).trans (List.map_id _)
  refine ⟨?_, ?_, ?_⟩
  · unfold init_pairs_table
    rw [if_neg (by simp : ¬(true = false)), if_pos (show ([] : List Row).length = 0 from rfl)]
  · rw [hrows]
    exact pairSpaceComplete_combinations2 h
  · rw [calcD_empty_store zc h, resultsList_idPair]
    exact pairSpaceComplete_combinations2 h

theorem spec_c1_pair_generation_witness :
    (([("A", (0 : ℝ), (0 : ℝ)), ("B", 0, 1), ("C", 1, 0)].map
      (fun z => z.1)).Nodup) ∧
    ((init_pairs_table true [("A", (0 : ℝ), (0 : ℝ)), ("B", 0, 1), ("C", 1, 0)] []).2 = none ∧
    pairSpaceComplete ([("A", (0 : ℝ), (0 : ℝ)), ("B", 0, 1), ("C", 1, 0)].map (fun z => z.1))
      (((init_pairs_table true [("A", (0 : ℝ), (0 : ℝ)), ("B", 0, 1), ("C", 1, 0)] []).1).map idPair) ∧
    pairSpaceComplete ([("A", (0 : ℝ), (0 : ℝ)), ("B", 0, 1), ("C", 1, 0)].map (fun z => z.1))
      ((calculate_distances_for_all_pairsD true
        [("A", (0 : ℝ), (0 : ℝ)), ("B", 0, 1), ("C", 1, 0)] []).map idPair)) :=
  ⟨by decide, spec_c1_pair_generation _ (by decide)⟩

/-- C3: a store already holding exactly `N*(N-1)/2` rows makes the pair
space generator a no-op: it returns the store unchanged and reports no
error. -/
theorem spec_c3_idempotent_generation (zc : Catalog) (store : List Row)
    (h : store.length = zc.length * (zc.length - 1) / 2) :
    init_pairs_table true zc store = (store, none) := by
  unfold init_pairs_table
  rw [if_neg (by simp : ¬(true = false))]
  by_cases h0 : store.length = 0
  · rw [if_pos h0]
    have hstore : store = [] := List.length_eq_zero.mp h0
    subst hstore
    rcases zc with _ | ⟨z1, zc1⟩
    · simp [combinations2]
    rcases zc1 with _ | ⟨z2, zs⟩
    · simp [combinations2]
    exfalso
    rw [h0] at h
    have hlen : (z1 :: z2 :: zs).length * ((z1 :: z2 :: zs).length - 1) / 2 = 0 := h.symm
    simp only [List.length_cons, Nat.add_sub_cancel] at hlen
    have h2 : 2 ≤ (zs.length + 1 + 1) * (zs.length + 1) := by nlinarith [Nat.zero_le zs.length]
    have hlt : (zs.length + 1 + 1) * (zs.length + 1) < 2 :=
      (Nat.div_eq_zero_iff (by norm_num)).mp hlen
    exact absurd (lt_of_lt_of_le hlt h2) (lt_irrefl _)
  · rw [if_neg h0, if_pos h]

theorem spec_c3_idempotent_generation_witness :
    (([("A", "B", (none : Option ℝ))] : List Row).length =
      ([("A", (0 : ℝ), (0 : ℝ)), ("B", 0, 1)] : Catalog).length *
        (([("A", (0 : ℝ), (0 : ℝ)), ("B", 0, 1)] : Catalog).length - 1) / 2) ∧
    init_pairs_table true [("A", (0 : ℝ), (0 : ℝ)), ("B", 0, 1)]
      [("A", "B", (none : Option ℝ))] = ([("A", "B", (none : Option ℝ))], none) :=
  ⟨by decide, spec_c3_idempotent_generation _ _ (by decide)⟩

/-- C4: a store whose row count is neither `0` nor `N*(N-1)/2` makes the
pair space generator refuse: it raises an error and leaves the store
untouched — nothing is recomputed, skipped over, or inserted. -/
theorem spec_c4_corrupt_state (zc : Catalog) (store : List Row)
    (h0 : store.length ≠ 0)
    (ht : store.length ≠ zc.length * (zc.length - 1) / 2) :
    (init_pairs_table true zc store).1 = store ∧
      ∃ msg, (init_pairs_table true zc store).2 = some msg := by
  unfold init_pairs_table
  rw [if_neg (by simp : ¬(true = false)), if_neg h0, if_neg ht]
  exact ⟨rfl, _, rfl⟩

theorem spec_c4_corrupt_state_witness :
    (([("A", "B", (none : Option ℝ))] : List Row).length ≠ 0) ∧
    (([("A", "B", (none : Option ℝ))] : List Row).length ≠
      ([("A", (0 : ℝ), (0 : ℝ)), ("B", 0, 1), ("C", 1, 0)] : Catalog).length *
        (([("A", (0 : ℝ), (0 : ℝ)), ("B", 0, 1), ("C", 1, 0)] : Catalog).length - 1) / 2) ∧
    ((init_pairs_table true [("A", (0 : ℝ), (0 : ℝ)), ("B", 0, 1), ("C", 1, 0)]
        [("A", "B", (none : Option ℝ))]).1 = [("A", "B", (none : Option ℝ))] ∧
      ∃ msg, (init_pairs_table true [("A", (0 : ℝ), (0 : ℝ)), ("B", 0, 1), ("C", 1, 0)]
        [("A", "B", (none : Option ℝ))]).2 = some msg) :=
  ⟨by decide, by decide, spec_c4_corrupt_state _ _ (by decide) (by decide)⟩

/-- C5: the distance function is zero on identical points and symmetric in
its two points. -/
theorem spec_c5_distance_zero_and_symm :
    (∀ lat lon : ℝ, haversine lat lon lat lon = 0) ∧
    (∀ lat1 lon1 lat2 lon2 : ℝ,
      haversine lat1 lon1 lat2 lon2 = haversine lat2 lon2 lat1 lon1) :=
  ⟨haversine_self, haversine_symm⟩

/-- The three-point scenario catalog `{A:(0,0), B:(0,1), C:(1,0)}`. -/
def scenarioCatalog : List (String × ℝ × ℝ) := [("A", 0, 0), ("B", 0, 1), ("C", 1, 0)]

/-- C6: one full run over the scenario catalog stores exactly the three
records `{A,B}, {A,C}, {B,C}`, each distance is non-negative (distances of
the real-number model are trivially finite), and the `A`–`B` distance, one
degree of longitude at the equator, is `6371·π/180 ≈ 111.2` km within
`0.01`. -/
theorem spec_c6_scenario :
    calculate_distances_for_all_pairsD true scenarioCatalog [] =
      [("A", "B", haversine 0 0 0 1), ("A", "C", haversine 0 0 1 0),
        ("B", "C", haversine 0 1 1 0)] ∧
    0 ≤ haversine 0 0 0 1 ∧ 0 ≤ haversine 0 0 1 0 ∧ 0 ≤ haversine 0 1 1 0 ∧
    haversine 0 0 0 1 = 6371 * (Real.pi / 180) ∧
    |haversine 0 0 0 1 - 111.2| < 0.01 := by
  refine ⟨?_, haversine_nonneg 0 0 0 1, haversine_nonneg 0 0 1 0,
    haversine_nonneg 0 1 1 0, haversine_equator_one_deg, haversine_equator_approx⟩
  rw [calcD_empty_store scenarioCatalog (by decide)]
  unfold resultsList scenarioCatalog
  simp [combinations2]

/-- C2: from a post-generation store (all pairs pending, duplicate-free,
ids resolvable in the catalog), interrupting the batch runner after any `k`
committed batches and re-invoking it completes exactly the remaining
pending pairs — every already-recorded distance is kept verbatim
(`List.Forall₂ donePres`) — and converges to the same final store as the
uninterrupted run, with nothing left pending.  The DuckDB runner behaves
the same way: a store holding any prefix of the committed results leads to
the same final store as a run from the empty store. -/
theorem spec_c2_resumability (geod : ℝ × ℝ → ℝ × ℝ → ℝ) (zc : Catalog)
    (bs : ℕ) (store : List Row) (k : ℕ)
    (hres : Hres zc store)
    (hnull : ∀ r ∈ store, r.2.2.isNone = true)
    (hnodup : (store.map idPair).Nodup)
    (hbs : 0 < bs) :
    ∃ sk final,
      runBatches true geod zc bs k store = .ok sk ∧
      calculate_distances true geod zc bs sk =
        calculate_distances true geod zc bs store ∧
      calculate_distances true geod zc bs sk = .ok final ∧
      nullCount final = 0 ∧
      List.Forall₂ donePres sk final ∧
      (∀ (zd : List (String × ℝ × ℝ)) (m : ℕ), (zd.map (fun z => z.1)).Nodup →
        calculate_distances_for_all_pairsD true zd ((resultsList zd).take m) =
          calculate_distances_for_all_pairsD true zd []) := by
  obtain ⟨sk, h1, h2, h3, h4⟩ := runBatches_ok geod zc bs k store hres hnodup
  obtain ⟨final, hf, hnc⟩ :=
    calcLoop_terminates geod zc bs hbs (nullCount sk) sk le_rfl h3
  obtain ⟨final2, hf2, hfa⟩ :=
    calcLoop_pres geod zc bs hbs (nullCount sk) sk le_rfl h3 h4
  have hff : final2 = final := by
    rw [hf] at hf2
    exact (Except.ok.inj hf2).symm
  subst hff
  refine ⟨sk, final2, h1, ?_, ?_, hnc, hfa, ?_⟩
  · unfold calculate_distances
    rw [if_neg (by simp : ¬(true = false)), if_neg (by simp : ¬(true = false))]
    exact h2
  · unfold calculate_distances
    rw [if_neg (by simp : ¬(true = false))]
    exact hf
  · intro zd m hnd
    rw [calcD_resume zd hnd m, calcD_empty_store zd hnd]

theorem spec_c2_resumability_witness :
    Hres [("A", (0 : ℝ), (0 : ℝ)), ("B", 0, 1)] [("A", "B", (none : Option ℝ))] ∧
    (∀ r ∈ ([("A", "B", (none : Option ℝ))] : List Row), r.2.2.isNone = true) ∧
    (([("A", "B", (none : Option ℝ))] : List Row).map idPair).Nodup ∧
    0 < 1 ∧
    (∃ sk final,
      runBatches true (fun _ _ => (0 : ℝ)) [("A", (0 : ℝ), (0 : ℝ)), ("B", 0, 1)] 1 1
        [("A", "B", (none : Option ℝ))] = .ok sk ∧
      calculate_distances true (fun _ _ => (0 : ℝ)) [("A", (0 : ℝ), (0 : ℝ)), ("B", 0, 1)] 1 sk =
        calculate_distances true (fun _ _ => (0 : ℝ)) [("A", (0 : ℝ), (0 : ℝ)), ("B", 0, 1)] 1
          [("A", "B", (none : Option ℝ))] ∧
      calculate_distances true (fun _ _ => (0 : ℝ)) [("A", (0 : ℝ), (0 : ℝ)), ("B", 0, 1)] 1 sk =
        .ok final ∧
      nullCount final = 0 ∧
      List.Forall₂ donePres sk final ∧
      (∀ (zd : List (String × ℝ × ℝ)) (m : ℕ), (zd.map (fun z => z.1)).Nodup →
        calculate_distances_for_all_pairsD true zd ((resultsList zd).take m) =
          calculate_distances_for_all_pairsD true zd [])) :=
  ⟨by decide, by decide, by decide, by decide,
    spec_c2_resumability (fun _ _ => (0 : ℝ)) _ 1 _ 1
      (by decide) (by decide) (by decide) (by decide)⟩

/-- C7 counterexample: the loader does not validate coordinate ranges — a
source with all required columns and latitude `100 ∉ [-90, 90]` loads
successfully instead of failing. -/
theorem spec_c7_load_range_counterexample :
    load_zipcodes ⟨true, ["zipcode", "latitude", "longitude"],
      [("00001", (100 : ℝ), 0)]⟩ = .ok [("00001", (100 : ℝ), 0)] ∧
    ¬((100 : ℝ) ≤ 90) := by
  refine ⟨rfl, by norm_num⟩

/-- C7 amended: catalog loading fails exactly when the file is missing or a
required column (`zipcode`, `latitude`, `longitude`) is absent; coordinate
ranges are not validated, so any rows — in or out of range — load
successfully once the columns are present. -/
theorem spec_c7_load_errors_amended (src : ZipSource) :
    (load_zipcodes src = .ok src.rows ↔
      (src.fileExists = true ∧ "zipcode" ∈ src.columns ∧
        "latitude" ∈ src.columns ∧ "longitude" ∈ src.columns)) ∧
    ((∃ e, load_zipcodes src = .error e) ↔
      ¬(src.fileExists = true ∧ "zipcode" ∈ src.columns ∧
        "latitude" ∈ src.columns ∧ "longitude" ∈ src.columns)) := by
  have hcols : ((["zipcode", "latitude", "longitude"].all
      (fun c => decide (c ∈ src.columns))) = true) ↔
      ("zipcode" ∈ src.columns ∧ "latitude" ∈ src.columns ∧
        "longitude" ∈ src.columns) := by
    simp
  unfold load_zipcodes
  split_ifs with h1 h2
  · constructor
    · constructor
      · intro h
        exact absurd h (by simp)
      · rintro ⟨hfe, -⟩
        rw [h1] at hfe
        exact absurd hfe (by simp)
    · constructor
      · rintro - ⟨hfe, -⟩
        rw [h1] at hfe
        exact absurd hfe (by simp)
      · intro _
        exact ⟨_, rfl⟩
  · have hnc : ¬("zipcode" ∈ src.columns ∧ "latitude" ∈ src.columns ∧
        "longitude" ∈ src.columns) := by
      rw [← hcols, h2]
      simp
    constructor
    · constructor
      · intro h
        exact absurd h (by simp)
      · rintro ⟨-, hc⟩
        exact absurd hc hnc
    · constructor
      · rintro - ⟨-, hc⟩
        exact absurd hc hnc
      · intro _
        exact ⟨_, rfl⟩
  · have hft : src.fileExists = true := by
      revert h1
      cases src.fileExists <;> simp
    have hc : "zipcode" ∈ src.columns ∧ "latitude" ∈ src.columns ∧
        "longitude" ∈ src.columns := by
      rw [← hcols]
      revert h2
      cases (["zipcode", "latitude", "longitude"].all
        (fun c => decide (c ∈ src.columns))) <;> simp
    constructor
    · constructor
      · intro _
        exact ⟨hft, hc⟩
      · intro _
        rfl
    · constructor
      · rintro ⟨e, he⟩
        exact absurd he (by simp)
      · intro h
        exact absurd ⟨hft, hc⟩ h

/-- C8 counterexample: a pair whose first latitude is NaN does not fail —
`calculate_distance` returns the pair with a NaN distance. -/
theorem spec_c8_nan_counterexample :
    calculate_distanceP (("A", (none : PF), some (0 : ℝ)),
      ("B", some (0 : ℝ), some (0 : ℝ))) = some ("A", "B", (none : PF)) := by
  unfold calculate_distanceP
  rw [haversineP_nan (by rfl)]

/-- C8 amended: a NaN coordinate anywhere in the pair is propagated, never
raised: `calculate_distance` returns the id pair with NaN as the distance
(the `except` branch returning `None` is not taken). -/
theorem spec_c8_nan_propagates (z1 z2 : String) (lat1 lon1 lat2 lon2 : PF)
    (h : (lat1.isNone || lon1.isNone || lat2.isNone || lon2.isNone) = true) :
    calculate_distanceP ((z1, lat1, lon1), (z2, lat2, lon2)) =
      some (z1, z2, (none : PF)) := by
  show some (z1, z2, haversineP lat1 lon1 lat2 lon2) = some (z1, z2, (none : PF))
  rw [haversineP_nan h]

theorem spec_c8_nan_propagates_witness :
    (((none : PF).isNone || (some (0 : ℝ) : PF).isNone ||
      (some (0 : ℝ) : PF).isNone || (some (0 : ℝ) : PF).isNone) = true) ∧
    calculate_distanceP (("X", (none : PF), some (0 : ℝ)),
      ("Y", some (0 : ℝ), some (0 : ℝ))) = some ("X", "Y", (none : PF)) :=
  ⟨rfl, spec_c8_nan_propagates "X" "Y" none (some 0) (some 0) (some 0) rfl⟩

/-- C9 counterexample: with a failing store the run still completes and
returns an empty results table — the batch was dropped, no retry, no
fatal error — while the same run with a working store commits the pair. -/
theorem spec_c9_commit_failure_counterexample :
    calculate_distances_for_all_pairsD false [("A", (0 : ℝ), (0 : ℝ)), ("B", 0, 1)] [] = [] ∧
    calculate_distances_for_all_pairsD true [("A", (0 : ℝ), (0 : ℝ)), ("B", 0, 1)] [] =
      [("A", "B", haversine 0 0 0 1)] := by
  constructor
  · exact calcD_commit_failure _ _
  · rw [calcD_empty_store _ (by decide)]
    unfold resultsList
    simp [combinations2]

/-- C9 amended: a failing batch commit is caught and logged inside
`save_results_to_duckdb`, the batch is dropped, and the run continues and
returns normally with the store unchanged — there is no retry, no backoff,
and no escalation to a fatal error. -/
theorem spec_c9_commit_failure_swallowed (zd : List (String × ℝ × ℝ))
    (store : List DRow) :
    calculate_distances_for_all_pairsD false zd store = store :=
  calcD_commit_failure zd store

/-- C10: under the precondition that every stored pair references zip codes
present in the catalog, the batch loop of `calculate_distances` terminates
with no pending pairs left; each iteration either finds no pending pairs
and exits, or commits a non-empty batch that strictly decreases the number
of `NULL`-distance rows. -/
theorem spec_c10_batch_loop_termination (geod : ℝ × ℝ → ℝ × ℝ → ℝ)
    (zc : Catalog) (bs : ℕ) (store : List Row)
    (hres : Hres zc store) (hbs : 0 < bs) :
    (∃ final, calculate_distances true geod zc bs store = .ok final ∧
      nullCount final = 0 ∧ pendingPairs final = []) ∧
    (∀ s : List Row, Hres zc s → (pullBatch s bs).isEmpty = false →
      ∃ ups, computeBatch geod zc (pullBatch s bs) = .ok ups ∧
        ups ≠ [] ∧ nullCount (applyUpdates ups s) < nullCount s) := by
  constructor
  · obtain ⟨final, hf, hnc⟩ :=
      calcLoop_terminates geod zc bs hbs (nullCount store) store le_rfl hres
    refine ⟨final, ?_, hnc, (nullCount_eq_zero_iff final).mp hnc⟩
    unfold calculate_distances
    rw [if_neg (by simp : ¬(true = false))]
    exact hf
  · intro s hs hne
    obtain ⟨ups, hcomp, hmap, hdec⟩ := calcLoop_progress hs hne
    refine ⟨ups, hcomp, ?_, hdec⟩
    intro hnil
    rw [hnil] at hmap
    have : pullBatch s bs = [] := hmap.symm
    rw [this] at hne
    exact absurd hne (by simp)

theorem spec_c10_batch_loop_termination_witness :
    Hres [("A", (0 : ℝ), (0 : ℝ)), ("B", 0, 1)] [("A", "B", (none : Option ℝ))] ∧
    0 < 1 ∧
    ((∃ final, calculate_distances true (fun _ _ => (0 : ℝ))
        [("A", (0 : ℝ), (0 : ℝ)), ("B", 0, 1)] 1 [("A", "B", (none : Option ℝ))] = .ok final ∧
      nullCount final = 0 ∧ pendingPairs final = []) ∧
    (∀ s : List Row, Hres [("A", (0 : ℝ), (0 : ℝ)), ("B", 0, 1)] s →
      (pullBatch s 1).isEmpty = false →
      ∃ ups, computeBatch (fun _ _ => (0 : ℝ)) [("A", (0 : ℝ), (0 : ℝ)), ("B", 0, 1)]
          (pullBatch s 1) = .ok ups ∧
        ups ≠ [] ∧ nullCount (applyUpdates ups s) < nullCount s)) :=
  ⟨by decide, by decide,
    spec_c10_batch_loop_termination (fun _ _ => (0 : ℝ)) _ 1 _ (by decide) (by decide)⟩

end PostalEngine
